import Mathlib

set_option maxRecDepth 4000

/-!
Verification of the Ledger Balance & Settlement Engine of a shared-expense
application (backend/crud.py), against its natural-language specification.

The engine's `Decimal` arithmetic is embedded in `ℚ` (all operations used by
the engine — addition, subtraction, negation, `min`, comparison — are exact on
decimals, so `ℚ` is a faithful carrier), with Python's `Decimal.quantize`
rounding modes made explicit:
  * `roundHU` — `ROUND_HALF_UP` (ties away from zero), the mode the source
    passes explicitly;
  * `roundHE` — `ROUND_HALF_EVEN` (banker's rounding), the `decimal` module's
    default context rounding, used whenever the source calls `quantize`
    without a `rounding=` argument.
-/

namespace GroupPay

/-- Python `ROUND_HALF_UP`: round to the nearest integer, ties away from
zero (`Decimal.quantize(..., rounding=ROUND_HALF_UP)`). -/
def roundHU (x : ℚ) : ℤ :=
  if 0 ≤ x then ⌊x + 1/2⌋ else -⌊-x + 1/2⌋

/-- Python `ROUND_HALF_EVEN` (the default context rounding of the `decimal`
module): round to the nearest integer, ties to the even neighbour. -/
def roundHE (x : ℚ) : ℤ :=
  if x - ⌊x⌋ < 1/2 then ⌊x⌋
  else if 1/2 < x - ⌊x⌋ then ⌊x⌋ + 1
  else if Even ⌊x⌋ then ⌊x⌋ else ⌊x⌋ + 1

/-- `quantize(Decimal("0.01"), rounding=ROUND_HALF_UP)`: scale-2 half-up. -/
def q2HU (x : ℚ) : ℚ := (roundHU (100 * x) : ℚ) / 100

/-- `quantize(Decimal("1"), rounding=ROUND_HALF_UP)`: scale-0 half-up. -/
def q0HU (x : ℚ) : ℚ := (roundHU x : ℚ)

/-- `quantize(Decimal("0.01"))` with no rounding argument: scale-2,
half-even (the Python default). -/
def q2HE (x : ℚ) : ℚ := (roundHE (100 * x) : ℚ) / 100

/-- `quantize(Decimal("1"))` with no rounding argument: scale-0, half-even. -/
def q0HE (x : ℚ) : ℚ := (roundHE x : ℚ)

/-- A value representable at scale 2 (a whole number of cents). -/
def isQ2 (x : ℚ) : Prop := ∃ k : ℤ, x = (k : ℚ) / 100

/- ## Data model (backend/models.py, as consumed by the engine) -/

/-- `SplitMethod` enum: `equal`, `exact`, `item`. -/
inductive SplitMethod where
  | equal
  | exact
  | item
  deriving DecidableEq

/-- `BillPart`: the stored definitive share for `equal`/`exact` bills. -/
structure BillPart where
  user_id : ℤ
  amount_owed : ℚ
  deriving DecidableEq

/-- `BillItemSplit`: a participant's quantity of one bill item. -/
structure BillItemSplit where
  user_id : ℤ
  quantity : ℤ
  deriving DecidableEq

/-- `BillItem`: one line of an itemised bill, with its per-user splits. -/
structure BillItem where
  unit_price : ℚ
  quantity : ℤ
  bill_item_splits : List BillItemSplit
  deriving DecidableEq

/-- `InitialPayment`: money a member fronted when the bill was created. -/
structure InitialPayment where
  user_id : ℤ
  amount_paid : ℚ
  deriving DecidableEq

/-- `Bill` as the engine reads it: split method, total, and the nested
collections (`bill_parts`, `items`, `initial_payments`). -/
structure Bill where
  split_method : SplitMethod
  total_amount : ℚ
  bill_parts : List BillPart
  items : List BillItem
  initial_payments : List InitialPayment
  deriving DecidableEq

/-- `Payment`: a direct settlement transaction between two members. -/
structure Payment where
  payer_id : ℤ
  payee_id : ℤ
  amount : ℚ
  deriving DecidableEq

/-- `_SuggestedPayment`: one leg of the suggested settlement plan. -/
structure SuggestedPayment where
  payer_id : ℤ
  payee_id : ℤ
  amount : ℚ
  deriving DecidableEq

/- ## 4.1 Bill Share Calculator: `calculate_user_owed_for_bill` -/

/-- The itemised accumulation loop shared by both share functions:
for every item, if the user has a split entry, add
`unit_price * split.quantity`. -/
def itemTotal (items : List BillItem) (user_id : ℤ) : ℚ :=
  items.foldl
    (fun acc item =>
      match item.bill_item_splits.find? (fun s => s.user_id = user_id) with
      | some s => acc + item.unit_price * (s.quantity : ℚ)
      | none => acc)
    0

/-- `calculate_user_owed_for_bill(bill, user_id)` (crud.py): the source of
truth for what a user owes on one bill.  For `equal`/`exact` the stored
`bill_parts` entry is used; for `item` the per-item splits are accumulated;
the result is quantized to scale 2 with `ROUND_HALF_UP`. -/
def calculate_user_owed_for_bill (bill : Bill) (user_id : ℤ) : ℚ :=
  let total_owed_by_user : ℚ :=
    if bill.split_method = SplitMethod.equal ∨ bill.split_method = SplitMethod.exact then
      match bill.bill_parts.find? (fun part => part.user_id = user_id) with
      | some part => part.amount_owed
      | none => 0
    else if bill.split_method = SplitMethod.item then
      if bill.items ≠ [] then itemTotal bill.items user_id else 0
    else 0
  q2HU total_owed_by_user

/-- `get_user_share_for_bill(bill, target_user_id)` (crud.py): the bilateral
path's share computation.  Same accumulation as
`calculate_user_owed_for_bill`, but the final quantization is to scale 0
(`Decimal("1")`) with `ROUND_HALF_UP`. -/
def get_user_share_for_bill (bill : Bill) (target_user_id : ℤ) : ℚ :=
  let user_monetary_share : ℚ :=
    if bill.split_method = SplitMethod.equal ∨ bill.split_method = SplitMethod.exact then
      if bill.bill_parts ≠ [] then
        match bill.bill_parts.find? (fun part => part.user_id = target_user_id) with
        | some part => part.amount_owed
        | none => 0
      else 0
    else if bill.split_method = SplitMethod.item then
      if bill.items ≠ [] then itemTotal bill.items target_user_id else 0
    else 0
  q0HU user_monetary_share

/-- The common pre-quantization share of a user on a bill (the value both
share functions accumulate before their final `quantize`). -/
def rawShare (bill : Bill) (user_id : ℤ) : ℚ :=
  match bill.split_method with
  | SplitMethod.item => itemTotal bill.items user_id
  | _ =>
      match bill.bill_parts.find? (fun part => part.user_id = user_id) with
      | some part => part.amount_owed
      | none => 0

/- ## 4.2 Group Balance Aggregator: `calculate_group_net_balances` -/

/-- Python `dict` key construction from a possibly-repeated list: keep the
first occurrence of each key, in order. -/
def pyDedup : List ℤ → List ℤ
  | [] => []
  | a :: l => a :: pyDedup (l.filter (fun b => b ≠ a))
termination_by l => l.length
decreasing_by
  simp only [List.length_cons]
  exact Nat.lt_succ_of_le (List.length_filter_le _ _)

/-- The balance dictionary: an association list from user id to balance. -/
abbrev BalMap := List (ℤ × ℚ)

/-- The keys of a balance dictionary. -/
def keysOf (m : BalMap) : List ℤ := m.map Prod.fst

/-- `if k in balances: balances[k] += v` — add `v` to the entry with key `k`
when present, leave the dictionary unchanged otherwise. -/
def updIfMem (m : BalMap) (k : ℤ) (v : ℚ) : BalMap :=
  m.map (fun e => if e.1 = k then (e.1, e.2 + v) else e)

/-- The participant set of a bill: the user ids of its `bill_parts` together
with the user ids of all of its items' splits (a Python `set`, here in
first-occurrence order). -/
def billParticipants (bill : Bill) : List ℤ :=
  pyDedup (bill.bill_parts.map BillPart.user_id ++
    (bill.items.map (fun item => item.bill_item_splits.map BillItemSplit.user_id)).flatten)

/-- Process one bill into the balances: subtract each initial payment from
its (current-member) payer, then add each current-member participant's
positive share. -/
def applyBill (m : BalMap) (bill : Bill) : BalMap :=
  let m1 := bill.initial_payments.foldl
    (fun m ip => updIfMem m ip.user_id (-ip.amount_paid)) m
  (billParticipants bill).foldl
    (fun m u =>
      if u ∈ keysOf m then
        if 0 < calculate_user_owed_for_bill bill u then
          updIfMem m u (calculate_user_owed_for_bill bill u)
        else m
      else m)
    m1

/-- Process one direct payment: subtract from the payer and add to the payee,
each only when a current member. -/
def applyPayment (m : BalMap) (p : Payment) : BalMap :=
  updIfMem (updIfMem m p.payer_id (-p.amount)) p.payee_id p.amount

/-- `calculate_group_net_balances` (crud.py), as the pure aggregation the
spec's §4.2 describes: given the current member ids and the group's fetched
bills and payments, produce the per-member net balance map.  An empty member
list short-circuits to the empty map. -/
def calculate_group_net_balances (member_ids : List ℤ) (bills : List Bill)
    (payments : List Payment) : BalMap :=
  if member_ids = [] then []
  else
    let balances : BalMap := (pyDedup member_ids).map (fun u => (u, (0 : ℚ)))
    let balances := bills.foldl applyBill balances
    payments.foldl applyPayment balances

/-- The sum of all balances in the map. -/
def sumValues (m : BalMap) : ℚ := (m.map Prod.snd).sum

/- ## 4.3 Settlement Planner: `calculate_suggested_settlements` -/

/-- The state of the two-pointer loop of `calculate_suggested_settlements`:
the mutable debtor and creditor lists, the two cursors, the payments emitted
so far, and the last values assigned to the Python locals
`new_amount_owed_by_payer` / `new_amount_due_to_payee` — `none` when those
locals are not yet bound, in which case reading them raises
`UnboundLocalError` (modelled as `Except.error`). -/
structure SettleState where
  debtor_list : List (ℤ × ℚ)
  creditor_list : List (ℤ × ℚ)
  debtor_idx : ℕ
  creditor_idx : ℕ
  news : Option (ℚ × ℚ)
  suggested_payments : List SuggestedPayment

/-- The loop guard: both cursors are within their lists. -/
def settleCond (st : SettleState) : Prop :=
  st.debtor_idx < st.debtor_list.length ∧ st.creditor_idx < st.creditor_list.length

instance (st : SettleState) : Decidable (settleCond st) := by
  unfold settleCond; infer_instance

/-- The emission half of one settlement iteration: read the current debtor
and creditor, take the transfer as the minimum of the two remaining amounts,
and — only when the transfer exceeds the dust threshold `0.005` — append the
quantized payment, decrement both sides in place, and (re)bind the `new_*`
locals. -/
def settleEmit (st : SettleState) (h : settleCond st) : SettleState :=
  if 1/200 < min (st.debtor_list.get ⟨st.debtor_idx, h.1⟩).2
      (st.creditor_list.get ⟨st.creditor_idx, h.2⟩).2 then
    { st with
      suggested_payments := st.suggested_payments ++
        [⟨(st.debtor_list.get ⟨st.debtor_idx, h.1⟩).1,
          (st.creditor_list.get ⟨st.creditor_idx, h.2⟩).1,
          q2HE (min (st.debtor_list.get ⟨st.debtor_idx, h.1⟩).2
            (st.creditor_list.get ⟨st.creditor_idx, h.2⟩).2)⟩]
      debtor_list := st.debtor_list.set st.debtor_idx
        ((st.debtor_list.get ⟨st.debtor_idx, h.1⟩).1,
          (st.debtor_list.get ⟨st.debtor_idx, h.1⟩).2 -
            min (st.debtor_list.get ⟨st.debtor_idx, h.1⟩).2
              (st.creditor_list.get ⟨st.creditor_idx, h.2⟩).2)
      creditor_list := st.creditor_list.set st.creditor_idx
        ((st.creditor_list.get ⟨st.creditor_idx, h.2⟩).1,
          (st.creditor_list.get ⟨st.creditor_idx, h.2⟩).2 -
            min (st.debtor_list.get ⟨st.debtor_idx, h.1⟩).2
              (st.creditor_list.get ⟨st.creditor_idx, h.2⟩).2)
      news := some
        ((st.debtor_list.get ⟨st.debtor_idx, h.1⟩).2 -
            min (st.debtor_list.get ⟨st.debtor_idx, h.1⟩).2
              (st.creditor_list.get ⟨st.creditor_idx, h.2⟩).2,
          (st.creditor_list.get ⟨st.creditor_idx, h.2⟩).2 -
            min (st.debtor_list.get ⟨st.debtor_idx, h.1⟩).2
              (st.creditor_list.get ⟨st.creditor_idx, h.2⟩).2) }
  else st

/-- The cursor-advance half of one settlement iteration: advance each cursor
whose side's `new_*` local is at most the dust threshold.  When the locals
are unbound this is never reached (the loop raises first). -/
def settleAdvance (st : SettleState) : SettleState :=
  match st.news with
  | none => st
  | some nd =>
    { st with
      debtor_idx := if nd.1 ≤ 1/200 then st.debtor_idx + 1 else st.debtor_idx
      creditor_idx := if nd.2 ≤ 1/200 then st.creditor_idx + 1 else st.creditor_idx }

/-- One iteration of the settlement `while` loop. -/
def settleStep (st : SettleState) (h : settleCond st) : SettleState :=
  settleAdvance (settleEmit st h)

/-- One pass of the settlement `while` loop, with `fuel` bounding the number
of iterations (the loop condition is tested before the fuel, so exhausted
cursors terminate normally at any fuel).  When the step is reached with the
`new_*` locals still unbound (`news = none`), the Python `UnboundLocalError`
is modelled as `Except.error ()`. -/
def settleLoop : ℕ → SettleState → Except Unit (List SuggestedPayment)
  | 0, st =>
      if settleCond st then Except.error () else Except.ok st.suggested_payments
  | fuel + 1, st =>
      if h : settleCond st then
        if 1/200 < min (st.debtor_list.get ⟨st.debtor_idx, h.1⟩).2
            (st.creditor_list.get ⟨st.creditor_idx, h.2⟩).2 then
          settleLoop fuel (settleStep st h)
        else
          match st.news with
          | none => Except.error ()
          | some _ => settleLoop fuel (settleStep st h)
      else Except.ok st.suggested_payments

/-- `calculate_suggested_settlements(net_balances)` (crud.py): partition the
balances into debtors (positive) and creditors (negative, negated), then run
the greedy two-pointer loop.  `Except.error ()` models the Python
`UnboundLocalError` raised when the cursor-advance check reads
`new_amount_owed_by_payer` / `new_amount_due_to_payee` before any transfer
has assigned them. -/
def calculate_suggested_settlements (net_balances : List (ℤ × ℚ)) :
    Except Unit (List SuggestedPayment) :=
  let debtor_list := (net_balances.filter (fun e => 0 < e.2)).map (fun e => (e.1, e.2))
  let creditor_list := (net_balances.filter (fun e => e.2 < 0)).map (fun e => (e.1, -e.2))
  settleLoop (debtor_list.length + creditor_list.length)
    ⟨debtor_list, creditor_list, 0, 0, none, []⟩

/-- The total amount of emitted payments whose payer is `u`. -/
def paidBy (u : ℤ) (l : List SuggestedPayment) : ℚ :=
  ((l.filter (fun p => p.payer_id = u)).map SuggestedPayment.amount).sum

/-- The number of emitted payments whose payer is `u`. -/
def paidCount (u : ℤ) (l : List SuggestedPayment) : ℕ :=
  (l.filter (fun p => p.payer_id = u)).length

/-- The total amount of emitted payments whose payee is `u`. -/
def receivedBy (u : ℤ) (l : List SuggestedPayment) : ℚ :=
  ((l.filter (fun p => p.payee_id = u)).map SuggestedPayment.amount).sum

/-- The number of emitted payments whose payee is `u`. -/
def receivedCount (u : ℤ) (l : List SuggestedPayment) : ℕ :=
  (l.filter (fun p => p.payee_id = u)).length

/-- Loop invariant for the debtor side of the settlement loop: the working
list keeps the original keys, every remaining amount is non-negative, and
the total emitted so far for each debtor is bounded by what has been
deducted from that debtor plus half a cent of quantization slack per emitted
payment. -/
def debtorInv (orig cur : List (ℤ × ℚ)) (acc : List SuggestedPayment) : Prop :=
  cur.length = orig.length ∧
  ∀ j, j < orig.length →
    (cur.getD j (0, 0)).1 = (orig.getD j (0, 0)).1 ∧
    0 ≤ (cur.getD j (0, 0)).2 ∧
    paidBy (orig.getD j (0, 0)).1 acc ≤
      ((orig.getD j (0, 0)).2 - (cur.getD j (0, 0)).2) +
      (1/200) * (paidCount (orig.getD j (0, 0)).1 acc : ℚ)

/-- Loop invariant for the creditor side of the settlement loop, symmetric
to `debtorInv` with received amounts. -/
def creditorInv (orig cur : List (ℤ × ℚ)) (acc : List SuggestedPayment) : Prop :=
  cur.length = orig.length ∧
  ∀ j, j < orig.length →
    (cur.getD j (0, 0)).1 = (orig.getD j (0, 0)).1 ∧
    0 ≤ (cur.getD j (0, 0)).2 ∧
    receivedBy (orig.getD j (0, 0)).1 acc ≤
      ((orig.getD j (0, 0)).2 - (cur.getD j (0, 0)).2) +
      (1/200) * (receivedCount (orig.getD j (0, 0)).1 acc : ℚ)

/- ## 4.4 Bilateral Balance Reconstructor: `calculate_balance_between_two_users` -/

/-- The running total of `calculate_balance_between_two_users` before its
final quantize: direct payments between the two users, then per-bill surplus
absorption. -/
def balanceBetweenRaw (user1_id user2_id : ℤ) (direct_payments : List Payment)
    (group_bills : List Bill) : ℚ :=
  let afterPayments := direct_payments.foldl
    (fun acc payment =>
      if payment.payer_id = user1_id then acc - payment.amount
      else if payment.payer_id = user2_id then acc + payment.amount
      else acc)
    0
  group_bills.foldl
    (fun acc bill =>
      let u1_share := get_user_share_for_bill bill user1_id
      let u2_share := get_user_share_for_bill bill user2_id
      if 0 < u1_share ∨ 0 < u2_share then
        let u1_paid_initially :=
          ((bill.initial_payments.filter (fun ip => ip.user_id = user1_id)).map
            InitialPayment.amount_paid).sum
        let u2_paid_initially :=
          ((bill.initial_payments.filter (fun ip => ip.user_id = user2_id)).map
            InitialPayment.amount_paid).sum
        let u2_surplus_on_bill := u2_paid_initially - u2_share
        let acc1 :=
          if 0 < u2_surplus_on_bill ∧ 0 < u1_share then
            acc + min u2_surplus_on_bill u1_share
          else acc
        let u1_surplus_on_bill := u1_paid_initially - u1_share
        if 0 < u1_surplus_on_bill ∧ 0 < u2_share then
          acc1 - min u1_surplus_on_bill u2_share
        else acc1
      else acc)
    afterPayments

/-- `calculate_balance_between_two_users` (crud.py): `0` for a self-query,
otherwise the running total quantized to scale 0 by `quantize(Decimal("1"))`
— the `decimal` default rounding, `ROUND_HALF_EVEN`. -/
def calculate_balance_between_two_users (user1_id user2_id : ℤ)
    (direct_payments : List Payment) (group_bills : List Bill) : ℚ :=
  if user1_id = user2_id then 0
  else q0HE (balanceBetweenRaw user1_id user2_id direct_payments group_bills)

/- ## `create_bill`, equal-split share computation -/

/-- The `equal`-split branch of `create_bill` (crud.py): `base_share` is the
`Decimal` floor division `total // n`, `remainder` is `total % n`, and member
`i` (0-based, iteration order) receives `base_share + 1` exactly when
`i < remainder`.  Faithful to `Decimal.__floordiv__` for positive totals
(truncation toward zero = floor). -/
def createBillEqualShares (total_amount : ℚ) (current_member_ids : List ℤ) :
    List BillPart :=
  let num_members := current_member_ids.length
  if current_member_ids = [] then []
  else
    let base_share : ℚ := (⌊total_amount / num_members⌋ : ℚ)
    let remainder : ℚ := total_amount - base_share * num_members
    (current_member_ids.enum).map
      (fun e => ⟨e.2, if (e.1 : ℚ) < remainder then base_share + 1 else base_share⟩)

/- ## Helper lemmas on the rounding primitives -/

lemma roundHU_intCast (k : ℤ) : roundHU (k : ℚ) = k := by
  unfold roundHU
  have h0 : ⌊(1/2 : ℚ)⌋ = 0 := by norm_num [Int.floor_eq_iff]
  split
  · rw [Int.floor_int_add, h0, add_zero]
  · rw [show -(k : ℚ) + 1/2 = ((-k : ℤ) : ℚ) + 1/2 by push_cast; ring,
      Int.floor_int_add, h0, add_zero, neg_neg]

lemma q2HU_of_isQ2 {x : ℚ} (h : isQ2 x) : q2HU x = x := by
  obtain ⟨k, rfl⟩ := h
  unfold q2HU
  rw [show (100 : ℚ) * ((k : ℚ) / 100) = (k : ℚ) by ring, roundHU_intCast]

lemma isQ2_zero : isQ2 0 := ⟨0, by norm_num⟩

lemma roundHE_le (x : ℚ) : (roundHE x : ℚ) ≤ x + 1/2 := by
  unfold roundHE
  have hfl : ((⌊x⌋ : ℚ)) ≤ x := Int.floor_le x
  split
  · linarith
  · split
    · rename_i h1 h2
      push_cast
      linarith
    · split <;> (push_cast; linarith)

lemma one_le_roundHE {x : ℚ} (h : 1/2 < x) : 1 ≤ roundHE x := by
  unfold roundHE
  have hfl : ((⌊x⌋ : ℚ)) ≤ x := Int.floor_le x
  have hlt : x < (⌊x⌋ : ℚ) + 1 := Int.lt_floor_add_one x
  have hge : (-1 : ℤ) < ⌊x⌋ := by exact_mod_cast (by linarith : (-1 : ℚ) < (⌊x⌋ : ℚ))
  split
  · rename_i hf
    have : (0 : ℤ) < ⌊x⌋ := by exact_mod_cast (by linarith : (0 : ℚ) < (⌊x⌋ : ℚ))
    omega
  · split
    · omega
    · rename_i h1 h2
      have hf : x - (⌊x⌋ : ℚ) = 1/2 := le_antisymm (not_lt.mp h2) (not_lt.mp h1)
      have : (0 : ℤ) < ⌊x⌋ := by exact_mod_cast (by linarith : (0 : ℚ) < (⌊x⌋ : ℚ))
      split <;> omega

lemma isQ2_q2HE (x : ℚ) : isQ2 (q2HE x) := ⟨roundHE (100 * x), rfl⟩

lemma q2HE_le (x : ℚ) : q2HE x ≤ x + 1/200 := by
  unfold q2HE
  have := roundHE_le (100 * x)
  linarith

lemma q2HE_ge_of_dust {x : ℚ} (h : 1/200 < x) : 1/100 ≤ q2HE x := by
  unfold q2HE
  have : (1 : ℚ) ≤ (roundHE (100 * x) : ℚ) := by
    exact_mod_cast one_le_roundHE (by linarith : (1/2 : ℚ) < 100 * x)
  linarith

/- ## Helper lemmas on the share computation -/

lemma itemTotal_go (u : ℤ) (items : List BillItem) (acc : ℚ) :
    items.foldl
      (fun acc item =>
        match item.bill_item_splits.find? (fun s => s.user_id = u) with
        | some s => acc + item.unit_price * (s.quantity : ℚ)
        | none => acc)
      acc = acc + itemTotal items u := by
  induction items generalizing acc with
  | nil => simp [itemTotal]
  | cons item items ih =>
    rw [List.foldl_cons]
    unfold itemTotal
    rw [List.foldl_cons, ih]
    cases item.bill_item_splits.find? (fun s => s.user_id = u) with
    | none =>
      simp only
      rw [show items.foldl _ (0:ℚ) = 0 + itemTotal items u from ih 0]
      ring
    | some s =>
      simp only
      rw [show items.foldl _ (0 + item.unit_price * (s.quantity : ℚ)) =
        (0 + item.unit_price * (s.quantity : ℚ)) + itemTotal items u from ih _]
      ring

lemma itemTotal_eq (items : List BillItem) (u : ℤ) :
    itemTotal items u =
      (items.map (fun item =>
        item.unit_price *
          ((((item.bill_item_splits.find? (fun s => s.user_id = u)).map
            BillItemSplit.quantity).getD 0 : ℤ) : ℚ))).sum := by
  induction items with
  | nil => simp [itemTotal]
  | cons item items ih =>
    unfold itemTotal
    rw [List.foldl_cons, itemTotal_go, List.map_cons, List.sum_cons, ← ih]
    cases item.bill_item_splits.find? (fun s => s.user_id = u) <;> simp [itemTotal]

/-- C3 — the Bill Share Calculator never throws (it is a total function) and
returns: for `equal`/`exact` bills with scale-2 stored parts, the
`amount_owed` of the user's `bill_parts` entry (0 when absent); for `item`
bills, the sum over all items of `unit_price` times the user's split
quantity (0 when absent from every item), quantized to scale 2 half-up. -/
theorem shareCalculator_spec (bill : Bill) (user_id : ℤ) :
    ((bill.split_method = SplitMethod.equal ∨ bill.split_method = SplitMethod.exact) →
      (∀ part ∈ bill.bill_parts, isQ2 part.amount_owed) →
      calculate_user_owed_for_bill bill user_id =
        ((bill.bill_parts.find? (fun part => part.user_id = user_id)).map
          BillPart.amount_owed).getD 0) ∧
    (bill.split_method = SplitMethod.item →
      calculate_user_owed_for_bill bill user_id =
        q2HU ((bill.items.map (fun item =>
          item.unit_price *
            ((((item.bill_item_splits.find? (fun s => s.user_id = user_id)).map
              BillItemSplit.quantity).getD 0 : ℤ) : ℚ))).sum)) := by
  constructor
  · intro hsp hq2
    unfold calculate_user_owed_for_bill
    rw [if_pos hsp]
    cases hfind : bill.bill_parts.find? (fun part => part.user_id = user_id) with
    | none => simpa using q2HU_of_isQ2 isQ2_zero
    | some part =>
      have hmem : part ∈ bill.bill_parts := List.mem_of_find?_eq_some hfind
      simpa using q2HU_of_isQ2 (hq2 part hmem)
  · intro hsp
    have hne : ¬(bill.split_method = SplitMethod.equal ∨
        bill.split_method = SplitMethod.exact) := by
      rw [hsp]; rintro (h | h) <;> exact SplitMethod.noConfusion h
    unfold calculate_user_owed_for_bill
    rw [if_neg hne, if_pos hsp, ← itemTotal_eq]
    cases bill.items with
    | nil => simp [itemTotal]
    | cons item items => simp

/-- C3 witness: concrete evaluations through the theorem — an `equal` bill
whose part for user 1 stores `2.50`, and scenario 3's itemised bill. -/
theorem shareCalculator_spec_witness :
    calculate_user_owed_for_bill ⟨SplitMethod.equal, 100, [⟨1, 5/2⟩], [], []⟩ 1 = 5/2 ∧
    calculate_user_owed_for_bill
      ⟨SplitMethod.item, 20, [], [⟨10, 2, [⟨1, 1⟩, ⟨2, 1⟩]⟩], []⟩ 1 = 10 := by
  constructor
  · have h := (shareCalculator_spec ⟨SplitMethod.equal, 100, [⟨1, 5/2⟩], [], []⟩ 1).1
      (Or.inl rfl)
      (by
        intro part hp
        simp only [List.mem_singleton] at hp
        subst hp
        exact ⟨250, by norm_num⟩)
    rw [h]
    simp [List.find?]
  · have h := (shareCalculator_spec
      ⟨SplitMethod.item, 20, [], [⟨10, 2, [⟨1, 1⟩, ⟨2, 1⟩]⟩], []⟩ 1).2 rfl
    rw [h]
    have : ((([⟨10, 2, [⟨1, 1⟩, ⟨2, 1⟩]⟩] : List BillItem).map (fun item =>
        item.unit_price *
          ((((item.bill_item_splits.find? (fun s => s.user_id = 1)).map
            BillItemSplit.quantity).getD 0 : ℤ) : ℚ))).sum) = 10 := by
      simp [List.find?]
    rw [this]
    exact q2HU_of_isQ2 ⟨1000, by norm_num⟩

/-- C7 counterexample: an `equal` bill whose stored part for user 1 is
`33.33`.  The 4.1 calculator returns `33.33`; the bilateral path's
`get_user_share_for_bill` returns `33` — the two share computations are not
equal, so the bilateral path does not return the 4.1 value. -/
theorem bilateral_share_cex :
    get_user_share_for_bill ⟨SplitMethod.equal, 100, [⟨1, 3333/100⟩], [], []⟩ 1 ≠
      calculate_user_owed_for_bill ⟨SplitMethod.equal, 100, [⟨1, 3333/100⟩], [], []⟩ 1 := by
  have h1 : get_user_share_for_bill ⟨SplitMethod.equal, 100, [⟨1, 3333/100⟩], [], []⟩ 1 =
      q0HU (3333/100) := by
    simp [get_user_share_for_bill, List.find?]
  have h2 : calculate_user_owed_for_bill ⟨SplitMethod.equal, 100, [⟨1, 3333/100⟩], [], []⟩ 1 =
      q2HU (3333/100) := by
    simp [calculate_user_owed_for_bill, List.find?]
  rw [h1, h2, q2HU_of_isQ2 ⟨3333, by norm_num⟩]
  unfold q0HU roundHU
  rw [if_pos (by norm_num : (0:ℚ) ≤ 3333/100)]
  rw [show ((3333:ℚ)/100 + 1/2) = 3383/100 by norm_num]
  rw [show ⌊(3383 : ℚ)/100⌋ = 33 by
    rw [Int.floor_eq_iff]; norm_num]
  norm_num

/-- C7 amended: both share computations accumulate the same pre-quantization
share (`rawShare`); they differ only in the final quantization — the
bilateral path quantizes to scale 0 half-up while the 4.1 calculator
quantizes to scale 2 half-up. -/
theorem bilateral_share_refinement (bill : Bill) (target_user_id : ℤ) :
    get_user_share_for_bill bill target_user_id =
      q0HU (rawShare bill target_user_id) ∧
    calculate_user_owed_for_bill bill target_user_id =
      q2HU (rawShare bill target_user_id) := by
  cases hsp : bill.split_method with
  | item =>
    have hne : ¬(bill.split_method = SplitMethod.equal ∨
        bill.split_method = SplitMethod.exact) := by
      rw [hsp]; rintro (h | h) <;> exact SplitMethod.noConfusion h
    unfold get_user_share_for_bill calculate_user_owed_for_bill rawShare
    rw [hsp]
    simp only [if_neg hne, if_pos, hsp]
    cases bill.items with
    | nil => exact ⟨by simp [itemTotal], by simp [itemTotal]⟩
    | cons item items => exact ⟨by simp, by simp⟩
  | equal =>
    unfold get_user_share_for_bill calculate_user_owed_for_bill rawShare
    rw [hsp]
    simp only [if_pos (Or.inl rfl)]
    cases hp : bill.bill_parts with
    | nil => simp
    | cons part parts => simp
  | exact =>
    unfold get_user_share_for_bill calculate_user_owed_for_bill rawShare
    rw [hsp]
    simp only [if_pos (Or.inr rfl)]
    cases hp : bill.bill_parts with
    | nil => simp
    | cons part parts => simp

/-- C6 counterexample: user 2 paid user 1 a direct payment of `0.50`, so the
running total is `0.50`; the code returns `0` (`quantize(Decimal("1"))`
defaults to half-even), while scale-0 round-half-up would give `1`. -/
theorem bilateral_rounding_cex :
    calculate_balance_between_two_users 1 2 [⟨2, 1, 1/2⟩] [] ≠
      q0HU (balanceBetweenRaw 1 2 [⟨2, 1, 1/2⟩] []) := by
  have hraw : balanceBetweenRaw 1 2 [⟨2, 1, 1/2⟩] [] = 1/2 := by
    simp [balanceBetweenRaw]
  have h1 : calculate_balance_between_two_users 1 2 [⟨2, 1, 1/2⟩] [] = 0 := by
    unfold calculate_balance_between_two_users
    rw [if_neg (by decide), hraw]
    unfold q0HE roundHE
    rw [show ⌊(1/2 : ℚ)⌋ = 0 by rw [Int.floor_eq_iff]; norm_num]
    norm_num
  have h2 : q0HU (balanceBetweenRaw 1 2 [⟨2, 1, 1/2⟩] []) = 1 := by
    rw [hraw]
    unfold q0HU roundHU
    rw [if_pos (by norm_num : (0:ℚ) ≤ 1/2)]
    norm_num
  rw [h1, h2]
  norm_num

/-- C6 amended: for distinct users the Bilateral Balance Reconstructor
returns its running total quantized to scale 0 with round-half-even (the
`decimal` default), not round-half-up; a self-query returns 0. -/
theorem bilateral_rounding (user1_id user2_id : ℤ) (direct_payments : List Payment)
    (group_bills : List Bill) (h : user1_id ≠ user2_id) :
    calculate_balance_between_two_users user1_id user2_id direct_payments group_bills =
      q0HE (balanceBetweenRaw user1_id user2_id direct_payments group_bills) := by
  unfold calculate_balance_between_two_users
  rw [if_neg h]

/-- C6 witness: the amended theorem applied at a concrete input. -/
theorem bilateral_rounding_witness :
    calculate_balance_between_two_users 1 2 [⟨2, 1, 1/2⟩] [] =
      q0HE (balanceBetweenRaw 1 2 [⟨2, 1, 1/2⟩] []) :=
  bilateral_rounding 1 2 [⟨2, 1, 1/2⟩] [] (by decide)

/- ## Helper lemmas for the equal-split share distribution -/

lemma sum_range_base_add_ite (b : ℚ) :
    ∀ (n r : ℕ), r ≤ n →
      (((List.range n).map (fun i => b + if i < r then (1:ℚ) else 0)).sum) =
        n * b + r := by
  intro n
  induction n with
  | zero =>
    intro r hr
    interval_cases r
    simp
  | succ n ih =>
    intro r hr
    rw [List.range_succ, List.map_append, List.sum_append]
    by_cases hrn : r ≤ n
    · rw [ih r hrn]
      have : ¬(n < r) := by omega
      simp only [this, if_false, List.map_cons, List.map_nil, List.sum_cons, List.sum_nil]
      push_cast
      ring
    · have hr1 : r = n + 1 := by omega
      subst hr1
      have hall : ((List.range n).map (fun i => b + if i < n + 1 then (1:ℚ) else 0)) =
          (List.range n).map (fun _ => b + 1) := by
        apply List.map_congr_left
        intro i hi
        have : i < n + 1 := by
          have := List.mem_range.mp hi
          omega
        simp [this]
      rw [hall]
      have hconst : ((List.range n).map (fun _ => b + (1:ℚ))).sum = n * (b + 1) := by
        rw [List.map_const', List.sum_replicate, List.length_range, nsmul_eq_mul]
      rw [hconst]
      have : n < n + 1 := by omega
      simp only [this, if_true, List.map_cons, List.map_nil, List.sum_cons, List.sum_nil]
      push_cast
      ring

/-- C5 counterexample: an equal-split bill of total `100.01` among 3 members.
`base_share = 100.01 // 3 = 33`, `remainder = 1.01`, and both member 0
(`0 < 1.01`) and member 1 (`1 < 1.01`) receive `base + 1`, so the stored
shares are `34, 34, 33` — they sum to `101`, not the bill total `100.01`. -/
theorem equalSplit_sum_cex :
    ((createBillEqualShares (10001/100) [10, 20, 30]).map BillPart.amount_owed).sum ≠
      10001/100 := by
  have hfl : ⌊(10001/100 : ℚ) / ((3:ℕ) : ℚ)⌋ = 33 := by
    rw [Int.floor_eq_iff]
    norm_num
  unfold createBillEqualShares
  rw [if_neg (by simp)]
  simp only [List.length_cons, List.length_nil]
  norm_num [List.enum, List.enumFrom, hfl]

/-- C5 amended: for an equal-split bill whose total `T` is a whole number of
currency units, member `i` (0-based iteration order) receives
`T / n + (1 if i < T mod n else 0)`, and the stored shares sum to `T`
exactly; in particular `100` among 3 members yields `34, 33, 33`.  (For
fractional totals the sum can differ from `T`, as the counterexample
shows.) -/
theorem equalSplit_shares (T : ℕ) (members : List ℤ) (hT : 0 < T)
    (hne : members ≠ []) :
    createBillEqualShares (T : ℚ) members =
      members.enum.map (fun e =>
        ⟨e.2, ((T / members.length : ℕ) : ℚ) +
          if e.1 < T % members.length then 1 else 0⟩) ∧
    ((createBillEqualShares (T : ℚ) members).map BillPart.amount_owed).sum = T := by
  have hn : 0 < members.length := List.length_pos.mpr hne
  have hbase : (⌊(T : ℚ) / (members.length : ℚ)⌋ : ℚ) = ((T / members.length : ℕ) : ℚ) := by
    rw [Rat.floor_natCast_div_natCast]
    rw [show ((T : ℤ) / (members.length : ℤ)) = ((T / members.length : ℕ) : ℤ) from
      (Int.ofNat_div T members.length).symm]
    rw [Int.cast_natCast]
  have hrem : (T : ℚ) - ((T / members.length : ℕ) : ℚ) * (members.length : ℚ) =
      ((T % members.length : ℕ) : ℚ) := by
    have := Nat.div_add_mod T members.length
    have hcast : ((members.length * (T / members.length) + T % members.length : ℕ) : ℚ)
        = (T : ℚ) := by rw [this]
    push_cast at hcast
    linarith
  have hmain : createBillEqualShares (T : ℚ) members =
      members.enum.map (fun e =>
        ⟨e.2, ((T / members.length : ℕ) : ℚ) +
          if e.1 < T % members.length then 1 else 0⟩) := by
    unfold createBillEqualShares
    rw [if_neg hne]
    apply List.map_congr_left
    intro e _
    have hcond : ((e.1 : ℚ) < ((T % members.length : ℕ) : ℚ)) ↔ e.1 < T % members.length :=
      Nat.cast_lt
    simp only [hbase, hrem]
    by_cases hc : e.1 < T % members.length
    · rw [if_pos (hcond.mpr hc), if_pos hc]
    · rw [if_neg (fun hx => hc (hcond.mp hx)), if_neg hc]
      simp
  refine ⟨hmain, ?_⟩
  rw [hmain]
  rw [List.map_map]
  have hfun : (BillPart.amount_owed ∘ fun e : ℕ × ℤ =>
      BillPart.mk e.2 (((T / members.length : ℕ) : ℚ) +
        if e.1 < T % members.length then 1 else 0)) =
      (fun i : ℕ => ((T / members.length : ℕ) : ℚ) +
        if i < T % members.length then (1:ℚ) else 0) ∘ Prod.fst := by
    funext e
    rfl
  rw [hfun, ← List.map_map, List.enum_map_fst]
  rw [sum_range_base_add_ite _ members.length (T % members.length)
    (le_of_lt (Nat.mod_lt T hn))]
  have := Nat.div_add_mod T members.length
  have hcast : ((members.length * (T / members.length) + T % members.length : ℕ) : ℚ)
      = (T : ℚ) := by rw [this]
  push_cast at hcast ⊢
  linarith

/-- C5 witness: the amended theorem applied to the spec's example — an
equal bill of `100.00` among 3 members yields shares `34, 33, 33`. -/
theorem equalSplit_shares_witness :
    createBillEqualShares ((100 : ℕ) : ℚ) [10, 20, 30] =
      [⟨10, 34⟩, ⟨20, 33⟩, ⟨30, 33⟩] ∧
    ((createBillEqualShares ((100 : ℕ) : ℚ) [10, 20, 30]).map
      BillPart.amount_owed).sum = (100 : ℕ) := by
  have h := equalSplit_shares 100 [10, 20, 30] (by norm_num) (by simp)
  refine ⟨?_, h.2⟩
  rw [h.1]
  norm_num [List.enum, List.enumFrom]

/- ## Helper lemmas for the Group Balance Aggregator -/

lemma pyDedup_bounded : ∀ (n : ℕ) (l : List ℤ), l.length ≤ n →
    (∀ u, u ∈ pyDedup l ↔ u ∈ l) ∧ (pyDedup l).Nodup := by
  intro n
  induction n with
  | zero =>
    intro l hl
    have : l = [] := List.length_eq_zero.mp (Nat.le_zero.mp hl)
    subst this
    simp [pyDedup]
  | succ n ih =>
    intro l hl
    cases l with
    | nil => simp [pyDedup]
    | cons a t =>
      have hlen : (t.filter (fun b => b ≠ a)).length ≤ n := by
        have h1 := List.length_filter_le (fun b => b ≠ a) t
        simp only [List.length_cons] at hl
        omega
      obtain ⟨hmem, hnd⟩ := ih (t.filter (fun b => b ≠ a)) hlen
      rw [show pyDedup (a :: t) = a :: pyDedup (t.filter (fun b => b ≠ a)) from by
        rw [pyDedup]]
      constructor
      · intro u
        rw [List.mem_cons, List.mem_cons, hmem u, List.mem_filter]
        by_cases hu : u = a
        · simp [hu]
        · simp [hu]
      · rw [List.nodup_cons]
        refine ⟨?_, hnd⟩
        intro ha
        have := (hmem a).mp ha
        rw [List.mem_filter] at this
        simp at this

lemma pyDedup_mem (l : List ℤ) (u : ℤ) : u ∈ pyDedup l ↔ u ∈ l :=
  (pyDedup_bounded l.length l (le_refl _)).1 u

lemma pyDedup_nodup (l : List ℤ) : (pyDedup l).Nodup :=
  (pyDedup_bounded l.length l (le_refl _)).2

lemma pyDedup_nil : pyDedup [] = [] := by rw [pyDedup]

lemma pyDedup_cons (a : ℤ) (l : List ℤ) :
    pyDedup (a :: l) = a :: pyDedup (l.filter (fun b => b ≠ a)) := by rw [pyDedup]

lemma keysOf_updIfMem (m : BalMap) (k : ℤ) (v : ℚ) :
    keysOf (updIfMem m k v) = keysOf m := by
  unfold keysOf updIfMem
  rw [List.map_map]
  apply List.map_congr_left
  intro e _
  by_cases h : e.1 = k <;> simp [h]

lemma updIfMem_of_not_mem (m : BalMap) (k : ℤ) (v : ℚ) (h : k ∉ keysOf m) :
    updIfMem m k v = m := by
  induction m with
  | nil => rfl
  | cons e t ih =>
    unfold updIfMem
    rw [List.map_cons]
    have hek : ¬(e.1 = k) := by
      intro hk
      exact h (by rw [keysOf, List.map_cons, ← hk]; exact List.mem_cons_self _ _)
    rw [if_neg hek]
    have ht : k ∉ keysOf t := by
      intro hk
      exact h (by rw [keysOf, List.map_cons]; exact List.mem_cons_of_mem _ hk)
    have := ih ht
    unfold updIfMem at this
    rw [this]

lemma sumValues_updIfMem (m : BalMap) (k : ℤ) (v : ℚ)
    (hmem : k ∈ keysOf m) (hnd : (keysOf m).Nodup) :
    sumValues (updIfMem m k v) = sumValues m + v := by
  induction m with
  | nil => simp [keysOf] at hmem
  | cons e t ih =>
    rw [keysOf, List.map_cons, List.nodup_cons] at hnd
    by_cases hek : e.1 = k
    · have hkt : k ∉ keysOf t := by rw [← hek]; exact hnd.1
      unfold updIfMem sumValues
      rw [List.map_cons, if_pos hek]
      have hfix := updIfMem_of_not_mem t k v hkt
      unfold updIfMem at hfix
      rw [hfix]
      simp only [List.map_cons, List.sum_cons]
      ring
    · have hkt : k ∈ keysOf t := by
        rw [keysOf, List.map_cons] at hmem
        rcases List.mem_cons.mp hmem with h | h
        · exact absurd h.symm hek
        · exact h
      unfold updIfMem sumValues
      rw [List.map_cons, if_neg hek]
      simp only [List.map_cons, List.sum_cons]
      have := ih hkt hnd.2
      unfold updIfMem sumValues at this
      rw [this]
      ring

lemma updIfMem_cancel (m : BalMap) (k : ℤ) (a : ℚ) :
    updIfMem (updIfMem m k (-a)) k a = m := by
  unfold updIfMem
  rw [List.map_map]
  have : ((fun e : ℤ × ℚ => if e.1 = k then (e.1, e.2 + a) else e) ∘
      fun e : ℤ × ℚ => if e.1 = k then (e.1, e.2 + -a) else e) = id := by
    funext e
    cases e with
    | mk a' b' => by_cases h : a' = k <;> simp [h, neg_add_cancel_right]
  rw [this, List.map_id]

lemma keysOf_foldl {α : Type} (f : BalMap → α → BalMap)
    (hf : ∀ m x, keysOf (f m x) = keysOf m) :
    ∀ (l : List α) (m : BalMap), keysOf (l.foldl f m) = keysOf m := by
  intro l
  induction l with
  | nil => intro m; rfl
  | cons x t ih => intro m; rw [List.foldl_cons, ih, hf]

lemma keysOf_applyPayment (m : BalMap) (p : Payment) :
    keysOf (applyPayment m p) = keysOf m := by
  unfold applyPayment
  rw [keysOf_updIfMem, keysOf_updIfMem]

lemma keysOf_applyBill (m : BalMap) (bill : Bill) :
    keysOf (applyBill m bill) = keysOf m := by
  unfold applyBill
  rw [keysOf_foldl _ (fun m u => by
    split
    · split
      · rw [keysOf_updIfMem]
      · rfl
    · rfl)]
  exact keysOf_foldl _ (fun m ip => keysOf_updIfMem m ip.user_id (-ip.amount_paid))
    bill.initial_payments m

lemma keysOf_netBalances (member_ids : List ℤ) (bills : List Bill)
    (payments : List Payment) (hne : member_ids ≠ []) :
    keysOf (calculate_group_net_balances member_ids bills payments) = pyDedup member_ids := by
  unfold calculate_group_net_balances
  rw [if_neg hne]
  rw [keysOf_foldl applyPayment keysOf_applyPayment,
    keysOf_foldl applyBill keysOf_applyBill]
  unfold keysOf
  rw [List.map_map]
  have : (Prod.fst ∘ fun u : ℤ => (u, (0:ℚ))) = id := funext (fun u => rfl)
  rw [this, List.map_id]

/-- C9 — the key set of the Group Balance Aggregator's result is exactly the
set of current member ids (historical non-member references never appear),
and an empty member list yields the empty map regardless of the bills and
payments. -/
theorem netBalances_keys (member_ids : List ℤ) (bills : List Bill)
    (payments : List Payment) :
    (∀ u, u ∈ keysOf (calculate_group_net_balances member_ids bills payments) ↔
      u ∈ member_ids) ∧
    (member_ids = [] → calculate_group_net_balances member_ids bills payments = []) := by
  constructor
  · intro u
    by_cases hne : member_ids = []
    · subst hne
      unfold calculate_group_net_balances
      rw [if_pos rfl]
      simp [keysOf]
    · rw [keysOf_netBalances member_ids bills payments hne, pyDedup_mem]
  · intro hne
    subst hne
    unfold calculate_group_net_balances
    rw [if_pos rfl]

/-- C9 witness: a payment between non-members 7 and 8 creates no key, and an
empty member list yields the empty map even with a bill and a payment
present. -/
theorem netBalances_keys_witness :
    ((5:ℤ) ∈ keysOf (calculate_group_net_balances [5] [] [⟨7, 8, 3⟩]) ↔
      (5:ℤ) ∈ ([5] : List ℤ)) ∧
    calculate_group_net_balances []
      [⟨SplitMethod.equal, 10, [⟨1, 10⟩], [], []⟩] [⟨1, 2, 5⟩] = [] :=
  ⟨(netBalances_keys [5] [] [⟨7, 8, 3⟩]).1 5,
   (netBalances_keys [] [⟨SplitMethod.equal, 10, [⟨1, 10⟩], [], []⟩] [⟨1, 2, 5⟩]).2 rfl⟩

/-- C10 — a self-payment (payer equal to payee, a current member) leaves the
aggregated balance map unchanged: the subtraction and the addition land on
the same key and cancel. -/
theorem netBalances_self_payment (member_ids : List ℤ) (bills : List Bill)
    (l1 l2 : List Payment) (p : Payment)
    (hself : p.payer_id = p.payee_id) (hmem : p.payer_id ∈ member_ids) :
    calculate_group_net_balances member_ids bills (l1 ++ p :: l2) =
      calculate_group_net_balances member_ids bills (l1 ++ l2) := by
  unfold calculate_group_net_balances
  by_cases hne : member_ids = []
  · rw [if_pos hne, if_pos hne]
  · rw [if_neg hne, if_neg hne]
    rw [List.foldl_append, List.foldl_append, List.foldl_cons]
    congr 1
    show applyPayment _ p = _
    unfold applyPayment
    rw [← hself, updIfMem_cancel]

/-- C10 witness: dropping a concrete self-payment from a concrete group's
payment list leaves the result unchanged. -/
theorem netBalances_self_payment_witness :
    calculate_group_net_balances [1, 2] [] ([⟨1, 2, 7⟩] ++ ⟨1, 1, 5⟩ :: []) =
      calculate_group_net_balances [1, 2] [] ([⟨1, 2, 7⟩] ++ []) :=
  netBalances_self_payment [1, 2] [] [⟨1, 2, 7⟩] [] ⟨1, 1, 5⟩ rfl
    (by simp)

/- ## Sum lemmas for the zero-sum analysis (C1) -/

lemma sumValues_ip_fold (ips : List InitialPayment) :
    ∀ (m : BalMap), (keysOf m).Nodup → (∀ ip ∈ ips, ip.user_id ∈ keysOf m) →
      sumValues (ips.foldl (fun m ip => updIfMem m ip.user_id (-ip.amount_paid)) m) =
        sumValues m - (ips.map InitialPayment.amount_paid).sum := by
  induction ips with
  | nil => intro m _ _; simp
  | cons ip t ih =>
    intro m hnd hall
    rw [List.foldl_cons]
    rw [ih _ (by rw [keysOf_updIfMem]; exact hnd)
      (fun x hx => by rw [keysOf_updIfMem]; exact hall x (List.mem_cons_of_mem _ hx))]
    rw [sumValues_updIfMem m _ _ (hall ip (List.mem_cons_self _ _)) hnd]
    rw [List.map_cons, List.sum_cons]
    ring

lemma sumValues_part_fold (bill : Bill) (l : List ℤ) :
    ∀ (m : BalMap), (keysOf m).Nodup → (∀ u ∈ l, u ∈ keysOf m) →
      sumValues (l.foldl
        (fun m u =>
          if u ∈ keysOf m then
            if 0 < calculate_user_owed_for_bill bill u then
              updIfMem m u (calculate_user_owed_for_bill bill u)
            else m
          else m) m) =
        sumValues m +
          (l.map (fun u => max (calculate_user_owed_for_bill bill u) 0)).sum := by
  induction l with
  | nil => intro m _ _; simp
  | cons u t ih =>
    intro m hnd hall
    rw [List.foldl_cons, List.map_cons, List.sum_cons]
    have hu : u ∈ keysOf m := hall u (List.mem_cons_self _ _)
    rw [if_pos hu]
    by_cases howed : 0 < calculate_user_owed_for_bill bill u
    · rw [if_pos howed]
      rw [ih _ (by rw [keysOf_updIfMem]; exact hnd)
        (fun x hx => by rw [keysOf_updIfMem]; exact hall x (List.mem_cons_of_mem _ hx))]
      rw [sumValues_updIfMem m _ _ hu hnd, max_eq_left howed.le]
      ring
    · rw [if_neg howed]
      rw [ih _ hnd (fun x hx => hall x (List.mem_cons_of_mem _ hx))]
      rw [max_eq_right (not_lt.mp howed)]
      ring

lemma sumValues_applyBill (m : BalMap) (bill : Bill)
    (hnd : (keysOf m).Nodup)
    (hip : ∀ ip ∈ bill.initial_payments, ip.user_id ∈ keysOf m)
    (hpart : ∀ u ∈ billParticipants bill, u ∈ keysOf m) :
    sumValues (applyBill m bill) = sumValues m
      + ((billParticipants bill).map
          (fun u => max (calculate_user_owed_for_bill bill u) 0)).sum
      - (bill.initial_payments.map InitialPayment.amount_paid).sum := by
  have hkeys : keysOf (bill.initial_payments.foldl
      (fun m (ip : InitialPayment) => updIfMem m ip.user_id (-ip.amount_paid)) m) =
      keysOf m :=
    keysOf_foldl (fun m (ip : InitialPayment) => updIfMem m ip.user_id (-ip.amount_paid))
      (fun m ip => keysOf_updIfMem m ip.user_id (-ip.amount_paid)) _ m
  unfold applyBill
  rw [sumValues_part_fold bill _ _ (by rw [hkeys]; exact hnd)
    (fun u hu => by rw [hkeys]; exact hpart u hu)]
  rw [sumValues_ip_fold _ _ hnd hip]
  ring

lemma sumValues_bill_fold (bills : List Bill) :
    ∀ (m : BalMap), (keysOf m).Nodup →
      (∀ bill ∈ bills, (∀ ip ∈ bill.initial_payments, ip.user_id ∈ keysOf m) ∧
        (∀ u ∈ billParticipants bill, u ∈ keysOf m)) →
      (∀ bill ∈ bills, (bill.initial_payments.map InitialPayment.amount_paid).sum =
        ((billParticipants bill).map
          (fun u => max (calculate_user_owed_for_bill bill u) 0)).sum) →
      sumValues (bills.foldl applyBill m) = sumValues m := by
  induction bills with
  | nil => intro m _ _ _; rfl
  | cons bill t ih =>
    intro m hnd hmem hbal
    rw [List.foldl_cons]
    have hk : keysOf (applyBill m bill) = keysOf m := keysOf_applyBill m bill
    rw [ih _ (by rw [hk]; exact hnd)
      (fun b hb => ⟨fun (ip : InitialPayment) hipx => by
          rw [hk]; exact (hmem b (List.mem_cons_of_mem _ hb)).1 ip hipx,
        fun (u : ℤ) hu => by
          rw [hk]; exact (hmem b (List.mem_cons_of_mem _ hb)).2 u hu⟩)
      (fun b hb => hbal b (List.mem_cons_of_mem _ hb))]
    rw [sumValues_applyBill m bill hnd (hmem bill (List.mem_cons_self _ _)).1
      (hmem bill (List.mem_cons_self _ _)).2]
    rw [← hbal bill (List.mem_cons_self _ _)]
    ring

lemma sumValues_applyPayment (m : BalMap) (p : Payment)
    (hnd : (keysOf m).Nodup)
    (h1 : p.payer_id ∈ keysOf m) (h2 : p.payee_id ∈ keysOf m) :
    sumValues (applyPayment m p) = sumValues m := by
  unfold applyPayment
  rw [sumValues_updIfMem _ _ _ (by rw [keysOf_updIfMem]; exact h2)
    (by rw [keysOf_updIfMem]; exact hnd)]
  rw [sumValues_updIfMem _ _ _ h1 hnd]
  ring

lemma sumValues_payment_fold (ps : List Payment) :
    ∀ (m : BalMap), (keysOf m).Nodup →
      (∀ p ∈ ps, p.payer_id ∈ keysOf m ∧ p.payee_id ∈ keysOf m) →
      sumValues (ps.foldl applyPayment m) = sumValues m := by
  induction ps with
  | nil => intro m _ _; rfl
  | cons p t ih =>
    intro m hnd hall
    rw [List.foldl_cons]
    have hk : keysOf (applyPayment m p) = keysOf m := keysOf_applyPayment m p
    rw [ih _ (by rw [hk]; exact hnd)
      (fun q hq => ⟨by rw [hk]; exact (hall q (List.mem_cons_of_mem _ hq)).1,
        by rw [hk]; exact (hall q (List.mem_cons_of_mem _ hq)).2⟩)]
    exact sumValues_applyPayment m p hnd (hall p (List.mem_cons_self _ _)).1
      (hall p (List.mem_cons_self _ _)).2

/-- C1 counterexample: a one-member group whose single (`exact`-split) bill
assigns the member a share of `100.00` with no initial payments.  The group
is closed — every referenced user is a current member — yet the balances sum
to `100`, far above the claimed `0.01 × member count` tolerance. -/
theorem netBalances_zero_sum_cex :
    sumValues (calculate_group_net_balances [1]
      [⟨SplitMethod.exact, 100, [⟨1, 100⟩], [], []⟩] []) = 100 ∧
    ¬ (|sumValues (calculate_group_net_balances [1]
        [⟨SplitMethod.exact, 100, [⟨1, 100⟩], [], []⟩] [])| ≤
      (1/100) * (([1] : List ℤ).length : ℚ)) := by
  have h : sumValues (calculate_group_net_balances [1]
      [⟨SplitMethod.exact, 100, [⟨1, 100⟩], [], []⟩] []) = 100 := by
    norm_num [calculate_group_net_balances, pyDedup, applyBill, billParticipants,
      updIfMem, keysOf, sumValues, calculate_user_owed_for_bill, List.find?,
      q2HU_of_isQ2 (⟨10000, by norm_num⟩ : isQ2 100)]
  refine ⟨h, ?_⟩
  rw [h]
  norm_num

/-- C1 amended: for a closed group (bills' initial payments, bill
participants, and payments reference only current members) **in which every
bill's fronted total equals its participants' positive-share total** (every
debit has a matching credit), the balances sum to zero — in particular
within the claimed `0.01 × member count` tolerance.  Without the
matching-credit condition the invariant fails (see the counterexample). -/
theorem netBalances_zero_sum (member_ids : List ℤ) (bills : List Bill)
    (payments : List Payment)
    (hip : ∀ bill ∈ bills, ∀ ip ∈ bill.initial_payments, ip.user_id ∈ member_ids)
    (hpart : ∀ bill ∈ bills, ∀ u ∈ billParticipants bill, u ∈ member_ids)
    (hpay : ∀ p ∈ payments, p.payer_id ∈ member_ids ∧ p.payee_id ∈ member_ids)
    (hbal : ∀ bill ∈ bills, (bill.initial_payments.map InitialPayment.amount_paid).sum =
      ((billParticipants bill).map
        (fun u => max (calculate_user_owed_for_bill bill u) 0)).sum) :
    |sumValues (calculate_group_net_balances member_ids bills payments)| ≤
      (1/100) * (member_ids.length : ℚ) := by
  by_cases hne : member_ids = []
  · subst hne
    unfold calculate_group_net_balances
    rw [if_pos rfl]
    simp [sumValues]
  · unfold calculate_group_net_balances
    rw [if_neg hne]
    have hkeys0 : keysOf ((pyDedup member_ids).map (fun u => (u, (0:ℚ)))) =
        pyDedup member_ids := by
      unfold keysOf
      rw [List.map_map]
      have : (Prod.fst ∘ fun u : ℤ => (u, (0:ℚ))) = id := funext (fun u => rfl)
      rw [this, List.map_id]
    have hnd0 : (keysOf ((pyDedup member_ids).map (fun u => (u, (0:ℚ))))).Nodup := by
      rw [hkeys0]; exact pyDedup_nodup member_ids
    have hkeysb : keysOf (bills.foldl applyBill
        ((pyDedup member_ids).map (fun u => (u, (0:ℚ))))) = pyDedup member_ids := by
      rw [keysOf_foldl applyBill keysOf_applyBill, hkeys0]
    rw [sumValues_payment_fold _ _ (by rw [hkeysb]; exact pyDedup_nodup member_ids)
      (fun p hp => ⟨by rw [hkeysb, pyDedup_mem]; exact (hpay p hp).1,
        by rw [hkeysb, pyDedup_mem]; exact (hpay p hp).2⟩)]
    rw [sumValues_bill_fold _ _ hnd0
      (fun b hb => ⟨fun ip hipx => by
          rw [hkeys0, pyDedup_mem]; exact hip b hb ip hipx,
        fun u hu => by
          rw [hkeys0, pyDedup_mem]; exact hpart b hb u hu⟩)
      hbal]
    have hz : sumValues ((pyDedup member_ids).map (fun u => (u, (0:ℚ)))) = 0 := by
      unfold sumValues
      rw [List.map_map]
      have : (Prod.snd ∘ fun u : ℤ => (u, (0:ℚ))) = fun _ => (0:ℚ) :=
        funext (fun u => rfl)
      rw [this, List.map_const', List.sum_replicate, smul_zero]
    rw [hz, abs_zero]
    positivity

/-- C1 witness: a closed, per-bill balanced concrete group (two members, one
equal bill of 100 fronted entirely by member 1, one direct payment) — the
amended theorem bounds the balance sum. -/
theorem netBalances_zero_sum_witness :
    |sumValues (calculate_group_net_balances [1, 2]
      [⟨SplitMethod.equal, 100, [⟨1, 50⟩, ⟨2, 50⟩], [], [⟨1, 100⟩]⟩]
      [⟨2, 1, 30⟩])| ≤ (1/100) * (([1, 2] : List ℤ).length : ℚ) := by
  apply netBalances_zero_sum
  · intro bill hb ip hip
    simp only [List.mem_singleton] at hb
    subst hb
    simp only [List.mem_singleton] at hip
    subst hip
    simp
  · intro bill hb u hu
    simp only [List.mem_singleton] at hb
    subst hb
    norm_num [billParticipants, pyDedup_cons, pyDedup_nil, List.filter] at hu
    rcases hu with h | h <;> simp [h]
  · intro p hp
    simp only [List.mem_singleton] at hp
    subst hp
    norm_num
  · intro bill hb
    simp only [List.mem_singleton] at hb
    subst hb
    norm_num [billParticipants, pyDedup_cons, pyDedup_nil, List.filter,
      calculate_user_owed_for_bill, List.find?,
      q2HU_of_isQ2 (⟨5000, by norm_num⟩ : isQ2 50)]

/- ## Helper lemmas for the Settlement Planner -/

lemma paidBy_append_single (u : ℤ) (l : List SuggestedPayment) (p : SuggestedPayment) :
    paidBy u (l ++ [p]) = paidBy u l + (if p.payer_id = u then p.amount else 0) := by
  by_cases h : p.payer_id = u <;>
    simp [paidBy, List.filter_append, List.filter_cons, h]

lemma paidCount_append_single (u : ℤ) (l : List SuggestedPayment) (p : SuggestedPayment) :
    paidCount u (l ++ [p]) = paidCount u l + (if p.payer_id = u then 1 else 0) := by
  by_cases h : p.payer_id = u <;>
    simp [paidCount, List.filter_append, List.filter_cons, h]

lemma receivedBy_append_single (u : ℤ) (l : List SuggestedPayment) (p : SuggestedPayment) :
    receivedBy u (l ++ [p]) = receivedBy u l + (if p.payee_id = u then p.amount else 0) := by
  by_cases h : p.payee_id = u <;>
    simp [receivedBy, List.filter_append, List.filter_cons, h]

lemma receivedCount_append_single (u : ℤ) (l : List SuggestedPayment) (p : SuggestedPayment) :
    receivedCount u (l ++ [p]) = receivedCount u l + (if p.payee_id = u then 1 else 0) := by
  by_cases h : p.payee_id = u <;>
    simp [receivedCount, List.filter_append, List.filter_cons, h]

lemma paidBy_nonneg (u : ℤ) (l : List SuggestedPayment)
    (h : ∀ p ∈ l, 0 ≤ p.amount) : 0 ≤ paidBy u l := by
  apply List.sum_nonneg
  intro x hx
  obtain ⟨p, hp, rfl⟩ := List.mem_map.mp hx
  exact h p (List.mem_of_mem_filter hp)

lemma receivedBy_nonneg (u : ℤ) (l : List SuggestedPayment)
    (h : ∀ p ∈ l, 0 ≤ p.amount) : 0 ≤ receivedBy u l := by
  apply List.sum_nonneg
  intro x hx
  obtain ⟨p, hp, rfl⟩ := List.mem_map.mp hx
  exact h p (List.mem_of_mem_filter hp)

lemma settleAdvance_fields (st : SettleState) :
    (settleAdvance st).debtor_list = st.debtor_list ∧
    (settleAdvance st).creditor_list = st.creditor_list ∧
    (settleAdvance st).suggested_payments = st.suggested_payments := by
  unfold settleAdvance
  cases st.news with
  | none => exact ⟨rfl, rfl, rfl⟩
  | some nd => exact ⟨rfl, rfl, rfl⟩

lemma settleEmit_debtorInv (orig : List (ℤ × ℚ)) (st : SettleState) (h : settleCond st)
    (hnd : (orig.map Prod.fst).Nodup)
    (hinv : debtorInv orig st.debtor_list st.suggested_payments) :
    debtorInv orig (settleEmit st h).debtor_list (settleEmit st h).suggested_payments := by
  obtain ⟨hlen, hj⟩ := hinv
  unfold settleEmit
  by_cases ht : 1/200 < min (st.debtor_list.get ⟨st.debtor_idx, h.1⟩).2
      (st.creditor_list.get ⟨st.creditor_idx, h.2⟩).2
  swap
  · rw [if_neg ht]
    exact ⟨hlen, hj⟩
  rw [if_pos ht]
  have hdl : st.debtor_idx < st.debtor_list.length := h.1
  have hdo : st.debtor_idx < orig.length := by rw [← hlen]; exact hdl
  obtain ⟨hkeyd, hvald, hboundd⟩ := hj st.debtor_idx hdo
  have hgetd : st.debtor_list.getD st.debtor_idx (0, 0) =
      st.debtor_list.get ⟨st.debtor_idx, h.1⟩ := by
    rw [List.getD_eq_getElem st.debtor_list (0, 0) hdl, List.get_eq_getElem]
  constructor
  · rw [List.length_set]
    exact hlen
  intro j hjo
  have hjc : j < st.debtor_list.length := by rw [hlen]; exact hjo
  have hjc' : j < (st.debtor_list.set st.debtor_idx
      ((st.debtor_list.get ⟨st.debtor_idx, h.1⟩).1,
        (st.debtor_list.get ⟨st.debtor_idx, h.1⟩).2 -
          min (st.debtor_list.get ⟨st.debtor_idx, h.1⟩).2
            (st.creditor_list.get ⟨st.creditor_idx, h.2⟩).2)).length := by
    rw [List.length_set]
    exact hjc
  rw [List.getD_eq_getElem _ (0, 0) hjc']
  by_cases hji : j = st.debtor_idx
  · subst hji
    rw [List.getElem_set_self]
    rw [hgetd] at hkeyd hvald hboundd
    refine ⟨hkeyd, ?_, ?_⟩
    · have := min_le_left (st.debtor_list.get ⟨st.debtor_idx, h.1⟩).2
        (st.creditor_list.get ⟨st.creditor_idx, h.2⟩).2
      simp only
      linarith
    · rw [paidBy_append_single, paidCount_append_single]
      rw [if_pos hkeyd, if_pos hkeyd]
      have hq := q2HE_le (min (st.debtor_list.get ⟨st.debtor_idx, h.1⟩).2
        (st.creditor_list.get ⟨st.creditor_idx, h.2⟩).2)
      simp only
      push_cast
      linarith
  · rw [List.getElem_set_ne (fun he => hji he.symm)]
    obtain ⟨hkey, hval, hbound⟩ := hj j hjo
    rw [List.getD_eq_getElem _ (0, 0) hjc] at hkey hval hbound
    have hpayer_ne : (st.debtor_list.get ⟨st.debtor_idx, h.1⟩).1 ≠
        (orig.getD j (0, 0)).1 := by
      have hA : (st.debtor_list.get ⟨st.debtor_idx, h.1⟩).1 =
          (orig.map Prod.fst).get ⟨st.debtor_idx, by rw [List.length_map]; exact hdo⟩ := by
        rw [← hgetd, hkeyd, List.getD_eq_getElem _ _ hdo,
          List.get_eq_getElem, List.getElem_map]
      have hB : (orig.getD j (0, 0)).1 =
          (orig.map Prod.fst).get ⟨j, by rw [List.length_map]; exact hjo⟩ := by
        rw [List.getD_eq_getElem _ _ hjo, List.get_eq_getElem, List.getElem_map]
      intro heq
      rw [hA, hB] at heq
      have hfin := (List.Nodup.get_inj_iff hnd).mp heq
      have hval : st.debtor_idx = j := congrArg Fin.val hfin
      exact hji hval.symm
    refine ⟨hkey, hval, ?_⟩
    rw [paidBy_append_single, paidCount_append_single]
    rw [if_neg hpayer_ne, if_neg hpayer_ne]
    simpa using hbound

lemma settleEmit_creditorInv (orig : List (ℤ × ℚ)) (st : SettleState) (h : settleCond st)
    (hnd : (orig.map Prod.fst).Nodup)
    (hinv : creditorInv orig st.creditor_list st.suggested_payments) :
    creditorInv orig (settleEmit st h).creditor_list (settleEmit st h).suggested_payments := by
  obtain ⟨hlen, hj⟩ := hinv
  unfold settleEmit
  by_cases ht : 1/200 < min (st.debtor_list.get ⟨st.debtor_idx, h.1⟩).2
      (st.creditor_list.get ⟨st.creditor_idx, h.2⟩).2
  swap
  · rw [if_neg ht]
    exact ⟨hlen, hj⟩
  rw [if_pos ht]
  have hcl : st.creditor_idx < st.creditor_list.length := h.2
  have hco : st.creditor_idx < orig.length := by rw [← hlen]; exact hcl
  obtain ⟨hkeyc, hvalc, hboundc⟩ := hj st.creditor_idx hco
  have hgetc : st.creditor_list.getD st.creditor_idx (0, 0) =
      st.creditor_list.get ⟨st.creditor_idx, h.2⟩ := by
    rw [List.getD_eq_getElem st.creditor_list (0, 0) hcl, List.get_eq_getElem]
  constructor
  · rw [List.length_set]
    exact hlen
  intro j hjo
  have hjc : j < st.creditor_list.length := by rw [hlen]; exact hjo
  have hjc' : j < (st.creditor_list.set st.creditor_idx
      ((st.creditor_list.get ⟨st.creditor_idx, h.2⟩).1,
        (st.creditor_list.get ⟨st.creditor_idx, h.2⟩).2 -
          min (st.debtor_list.get ⟨st.debtor_idx, h.1⟩).2
            (st.creditor_list.get ⟨st.creditor_idx, h.2⟩).2)).length := by
    rw [List.length_set]
    exact hjc
  rw [List.getD_eq_getElem _ (0, 0) hjc']
  by_cases hji : j = st.creditor_idx
  · subst hji
    rw [List.getElem_set_self]
    rw [hgetc] at hkeyc hvalc hboundc
    refine ⟨hkeyc, ?_, ?_⟩
    · have := min_le_right (st.debtor_list.get ⟨st.debtor_idx, h.1⟩).2
        (st.creditor_list.get ⟨st.creditor_idx, h.2⟩).2
      simp only
      linarith
    · rw [receivedBy_append_single, receivedCount_append_single]
      rw [if_pos hkeyc, if_pos hkeyc]
      have hq := q2HE_le (min (st.debtor_list.get ⟨st.debtor_idx, h.1⟩).2
        (st.creditor_list.get ⟨st.creditor_idx, h.2⟩).2)
      simp only
      push_cast
      linarith
  · rw [List.getElem_set_ne (fun he => hji he.symm)]
    obtain ⟨hkey, hval, hbound⟩ := hj j hjo
    rw [List.getD_eq_getElem _ (0, 0) hjc] at hkey hval hbound
    have hpayee_ne : (st.creditor_list.get ⟨st.creditor_idx, h.2⟩).1 ≠
        (orig.getD j (0, 0)).1 := by
      have hA : (st.creditor_list.get ⟨st.creditor_idx, h.2⟩).1 =
          (orig.map Prod.fst).get ⟨st.creditor_idx, by rw [List.length_map]; exact hco⟩ := by
        rw [← hgetc, hkeyc, List.getD_eq_getElem _ _ hco,
          List.get_eq_getElem, List.getElem_map]
      have hB : (orig.getD j (0, 0)).1 =
          (orig.map Prod.fst).get ⟨j, by rw [List.length_map]; exact hjo⟩ := by
        rw [List.getD_eq_getElem _ _ hjo, List.get_eq_getElem, List.getElem_map]
      intro heq
      rw [hA, hB] at heq
      have hfin := (List.Nodup.get_inj_iff hnd).mp heq
      have hval : st.creditor_idx = j := congrArg Fin.val hfin
      exact hji hval.symm
    refine ⟨hkey, hval, ?_⟩
    rw [receivedBy_append_single, receivedCount_append_single]
    rw [if_neg hpayee_ne, if_neg hpayee_ne]
    simpa using hbound

lemma settleStep_debtorInv (orig : List (ℤ × ℚ)) (st : SettleState) (h : settleCond st)
    (hnd : (orig.map Prod.fst).Nodup)
    (hinv : debtorInv orig st.debtor_list st.suggested_payments) :
    debtorInv orig (settleStep st h).debtor_list (settleStep st h).suggested_payments := by
  unfold settleStep
  rw [(settleAdvance_fields (settleEmit st h)).1,
    (settleAdvance_fields (settleEmit st h)).2.2]
  exact settleEmit_debtorInv orig st h hnd hinv

lemma settleStep_creditorInv (orig : List (ℤ × ℚ)) (st : SettleState) (h : settleCond st)
    (hnd : (orig.map Prod.fst).Nodup)
    (hinv : creditorInv orig st.creditor_list st.suggested_payments) :
    creditorInv orig (settleStep st h).creditor_list (settleStep st h).suggested_payments := by
  unfold settleStep
  rw [(settleAdvance_fields (settleEmit st h)).2.1,
    (settleAdvance_fields (settleEmit st h)).2.2]
  exact settleEmit_creditorInv orig st h hnd hinv

lemma settleLoop_not_cond (fuel : ℕ) (st : SettleState) (h : ¬ settleCond st) :
    settleLoop fuel st = Except.ok st.suggested_payments := by
  cases fuel with
  | zero => simp [settleLoop, h]
  | succ n => simp [settleLoop, h]

lemma settleLoop_step_emit (fuel : ℕ) (st : SettleState) (h : settleCond st)
    (ht : 1/200 < min (st.debtor_list.get ⟨st.debtor_idx, h.1⟩).2
      (st.creditor_list.get ⟨st.creditor_idx, h.2⟩).2) :
    settleLoop (fuel + 1) st = settleLoop fuel (settleStep st h) := by
  simp only [settleLoop]
  rw [dif_pos h, if_pos ht]

lemma inv_final_debtor (orig cur : List (ℤ × ℚ)) (acc : List SuggestedPayment)
    (hinv : debtorInv orig cur acc) :
    ∀ j, j < orig.length →
      paidBy (orig.getD j (0, 0)).1 acc ≤ (orig.getD j (0, 0)).2 +
        (1/200) * (paidCount (orig.getD j (0, 0)).1 acc : ℚ) := by
  intro j hj
  obtain ⟨-, h⟩ := hinv
  obtain ⟨-, hge, hle⟩ := h j hj
  linarith

lemma inv_final_creditor (orig cur : List (ℤ × ℚ)) (acc : List SuggestedPayment)
    (hinv : creditorInv orig cur acc) :
    ∀ j, j < orig.length →
      receivedBy (orig.getD j (0, 0)).1 acc ≤ (orig.getD j (0, 0)).2 +
        (1/200) * (receivedCount (orig.getD j (0, 0)).1 acc : ℚ) := by
  intro j hj
  obtain ⟨-, h⟩ := hinv
  obtain ⟨-, hge, hle⟩ := h j hj
  linarith

lemma settleLoop_inv_ok (orig_d orig_c : List (ℤ × ℚ))
    (hnd : (orig_d.map Prod.fst).Nodup) (hnc : (orig_c.map Prod.fst).Nodup) :
    ∀ (fuel : ℕ) (st : SettleState) (l : List SuggestedPayment),
      debtorInv orig_d st.debtor_list st.suggested_payments →
      creditorInv orig_c st.creditor_list st.suggested_payments →
      settleLoop fuel st = Except.ok l →
      (∀ j, j < orig_d.length →
        paidBy (orig_d.getD j (0, 0)).1 l ≤ (orig_d.getD j (0, 0)).2 +
          (1/200) * (paidCount (orig_d.getD j (0, 0)).1 l : ℚ)) ∧
      (∀ j, j < orig_c.length →
        receivedBy (orig_c.getD j (0, 0)).1 l ≤ (orig_c.getD j (0, 0)).2 +
          (1/200) * (receivedCount (orig_c.getD j (0, 0)).1 l : ℚ)) := by
  intro fuel
  induction fuel with
  | zero =>
    intro st l hd hc hok
    simp only [settleLoop] at hok
    split at hok
    · simp at hok
    · rw [Except.ok.injEq] at hok
      subst hok
      exact ⟨inv_final_debtor orig_d _ _ hd, inv_final_creditor orig_c _ _ hc⟩
  | succ fuel ih =>
    intro st l hd hc hok
    simp only [settleLoop] at hok
    split at hok
    · rename_i hcond
      split at hok
      · exact ih (settleStep st hcond) l
          (settleStep_debtorInv orig_d st hcond hnd hd)
          (settleStep_creditorInv orig_c st hcond hnc hc) hok
      · split at hok
        · simp at hok
        · exact ih (settleStep st hcond) l
            (settleStep_debtorInv orig_d st hcond hnd hd)
            (settleStep_creditorInv orig_c st hcond hnc hc) hok
    · rw [Except.ok.injEq] at hok
      subst hok
      exact ⟨inv_final_debtor orig_d _ _ hd, inv_final_creditor orig_c _ _ hc⟩

lemma settleLoop_ok_all (P : SuggestedPayment → Prop)
    (hP : ∀ payer payee t, 1/200 < t → P ⟨payer, payee, q2HE t⟩) :
    ∀ (fuel : ℕ) (st : SettleState) (l : List SuggestedPayment),
      (∀ p ∈ st.suggested_payments, P p) →
      settleLoop fuel st = Except.ok l → ∀ p ∈ l, P p := by
  intro fuel
  induction fuel with
  | zero =>
    intro st l hacc hok
    simp only [settleLoop] at hok
    split at hok
    · simp at hok
    · rw [Except.ok.injEq] at hok
      subst hok
      exact hacc
  | succ fuel ih =>
    intro st l hacc hok
    simp only [settleLoop] at hok
    split at hok
    · rename_i hcond
      have hstep : ∀ p ∈ (settleStep st hcond).suggested_payments, P p := by
        intro p hp
        rw [settleStep, (settleAdvance_fields (settleEmit st hcond)).2.2] at hp
        unfold settleEmit at hp
        by_cases ht : 1/200 < min (st.debtor_list.get ⟨st.debtor_idx, hcond.1⟩).2
            (st.creditor_list.get ⟨st.creditor_idx, hcond.2⟩).2
        · rw [if_pos ht] at hp
          simp only [List.mem_append, List.mem_singleton] at hp
          rcases hp with hp | hp
          · exact hacc p hp
          · subst hp
            exact hP _ _ _ ht
        · rw [if_neg ht] at hp
          exact hacc p hp
      split at hok
      · exact ih (settleStep st hcond) l hstep hok
      · split at hok
        · simp at hok
        · exact ih (settleStep st hcond) l hstep hok
    · rw [Except.ok.injEq] at hok
      subst hok
      exact hacc

/-- C2 — the Settlement Planner is *not* total: on a balance map whose very
first matched pair is sub-dust (here `{1: 0.004, 2: -0.004}`), the transfer
is skipped and the cursor-advance check reads the still-unbound locals
`new_amount_owed_by_payer` / `new_amount_due_to_payee`, raising Python's
`UnboundLocalError` (modelled as `Except.error ()`). -/
theorem settlement_unbound_local :
    calculate_suggested_settlements [(1, 1/250), (2, -(1/250))] = Except.error () := by
  norm_num [calculate_suggested_settlements, settleLoop, settleStep, settleEmit,
    settleAdvance, settleCond, List.filter_cons]

/-- C8 — every payment emitted by the Settlement Planner (whenever it
returns) has amount strictly above the dust threshold `0.005` and is a whole
number of cents (scale-2 quantized); and an all-zero balance map yields the
empty plan. -/
theorem settlement_dust_suppression :
    (∀ (net_balances : List (ℤ × ℚ)) (l : List SuggestedPayment),
      calculate_suggested_settlements net_balances = Except.ok l →
      ∀ p ∈ l, 1/200 < p.amount ∧ isQ2 p.amount) ∧
    (∀ net_balances : List (ℤ × ℚ),
      (∀ e ∈ net_balances, e.2 = (0:ℚ)) →
      calculate_suggested_settlements net_balances = Except.ok []) := by
  constructor
  · intro nb l hok p hp
    unfold calculate_suggested_settlements at hok
    refine settleLoop_ok_all (fun p => 1/200 < p.amount ∧ isQ2 p.amount) ?_ _ _ l ?_ hok p hp
    · intro payer payee t ht
      exact ⟨lt_of_lt_of_le (by norm_num) (q2HE_ge_of_dust ht), isQ2_q2HE _⟩
    · intro q hq
      simp at hq
  · intro nb hz
    unfold calculate_suggested_settlements
    have hd : nb.filter (fun e => 0 < e.2) = [] := by
      rw [List.filter_eq_nil_iff]
      intro e he
      simp [hz e he]
    simp only [hd, List.map_nil]
    rw [settleLoop_not_cond]
    simp [settleCond]

/-- C8 witness: the theorem applied at the concrete maps `{1: 2, 2: -2}`
(one emitted payment of 2) and `{1: 0}` (empty plan). -/
theorem settlement_dust_suppression_witness :
    ((1/200 : ℚ) < (2:ℚ) ∧ isQ2 (2:ℚ)) ∧
    calculate_suggested_settlements [((1:ℤ), (0:ℚ))] = Except.ok [] := by
  constructor
  · exact settlement_dust_suppression.1 [(1, 2), (2, -2)] [⟨1, 2, 2⟩]
      (by norm_num [calculate_suggested_settlements, settleLoop, settleStep, settleEmit,
        settleAdvance, settleCond, List.filter_cons, q2HE, roundHE])
      ⟨1, 2, 2⟩ (by simp)
  · exact settlement_dust_suppression.2 [(1, 0)]
      (by
        intro e he
        simp only [List.mem_singleton] at he
        subst he
        rfl)

lemma settleCex_init : calculate_suggested_settlements
    [((1:ℤ), (1:ℚ)), (2, 1), (3, 1009/1000), (4, -(1003/1000)), (5, -(1003/1000)),
      (6, -(1003/1000))] =
    settleLoop 6 ⟨[((1:ℤ), (1:ℚ)), (2, 1), (3, 1009/1000)],
      [(4, 1003/1000), (5, 1003/1000), (6, 1003/1000)], 0, 0, none, []⟩ := by
  norm_num [calculate_suggested_settlements, List.filter_cons]

lemma settleCex_iter1 : settleLoop 6 ⟨[((1:ℤ), (1:ℚ)), (2, 1), (3, 1009/1000)],
      [(4, 1003/1000), (5, 1003/1000), (6, 1003/1000)], 0, 0, none, []⟩ = settleLoop 5 ⟨[((1:ℤ), (0:ℚ)), (2, 1), (3, 1009/1000)],
      [(4, 3/1000), (5, 1003/1000), (6, 1003/1000)], 1, 1,
      some (0, 3/1000), [⟨1, 4, 1⟩]⟩ := by
  have hc : settleCond ⟨[((1:ℤ), (1:ℚ)), (2, 1), (3, 1009/1000)],
      [(4, 1003/1000), (5, 1003/1000), (6, 1003/1000)], 0, 0, none, []⟩ := by
    constructor <;> norm_num
  have he := settleLoop_step_emit 5 _ hc (by
    show (1/200 : ℚ) < min 1 (1003/1000)
    norm_num)
  have hs : settleStep ⟨[((1:ℤ), (1:ℚ)), (2, 1), (3, 1009/1000)],
      [(4, 1003/1000), (5, 1003/1000), (6, 1003/1000)], 0, 0, none, []⟩ hc = ⟨[((1:ℤ), (0:ℚ)), (2, 1), (3, 1009/1000)],
      [(4, 3/1000), (5, 1003/1000), (6, 1003/1000)], 1, 1,
      some (0, 3/1000), [⟨1, 4, 1⟩]⟩ := by
    norm_num [settleStep, settleEmit, settleAdvance, q2HE, roundHE]
  rw [he, hs]

lemma settleCex_iter2 : settleLoop 5 ⟨[((1:ℤ), (0:ℚ)), (2, 1), (3, 1009/1000)],
      [(4, 3/1000), (5, 1003/1000), (6, 1003/1000)], 1, 1,
      some (0, 3/1000), [⟨1, 4, 1⟩]⟩ = settleLoop 4 ⟨[((1:ℤ), (0:ℚ)), (2, 0), (3, 1009/1000)],
      [(4, 3/1000), (5, 3/1000), (6, 1003/1000)], 2, 2,
      some (0, 3/1000), [⟨1, 4, 1⟩, ⟨2, 5, 1⟩]⟩ := by
  have hc : settleCond ⟨[((1:ℤ), (0:ℚ)), (2, 1), (3, 1009/1000)],
      [(4, 3/1000), (5, 1003/1000), (6, 1003/1000)], 1, 1,
      some (0, 3/1000), [⟨1, 4, 1⟩]⟩ := by
    constructor <;> norm_num
  have he := settleLoop_step_emit 4 _ hc (by
    show (1/200 : ℚ) < min 1 (1003/1000)
    norm_num)
  have hs : settleStep ⟨[((1:ℤ), (0:ℚ)), (2, 1), (3, 1009/1000)],
      [(4, 3/1000), (5, 1003/1000), (6, 1003/1000)], 1, 1,
      some (0, 3/1000), [⟨1, 4, 1⟩]⟩ hc = ⟨[((1:ℤ), (0:ℚ)), (2, 0), (3, 1009/1000)],
      [(4, 3/1000), (5, 3/1000), (6, 1003/1000)], 2, 2,
      some (0, 3/1000), [⟨1, 4, 1⟩, ⟨2, 5, 1⟩]⟩ := by
    norm_num [settleStep, settleEmit, settleAdvance, q2HE, roundHE]
  rw [he, hs]

lemma settleCex_hc2 : settleCond ⟨[((1:ℤ), (0:ℚ)), (2, 0), (3, 1009/1000)],
      [(4, 3/1000), (5, 3/1000), (6, 1003/1000)], 2, 2,
      some (0, 3/1000), [⟨1, 4, 1⟩, ⟨2, 5, 1⟩]⟩ := by
  constructor <;> norm_num

lemma settleCex_he3 : settleLoop 4 ⟨[((1:ℤ), (0:ℚ)), (2, 0), (3, 1009/1000)],
      [(4, 3/1000), (5, 3/1000), (6, 1003/1000)], 2, 2,
      some (0, 3/1000), [⟨1, 4, 1⟩, ⟨2, 5, 1⟩]⟩ =
    settleLoop 3 (settleStep ⟨[((1:ℤ), (0:ℚ)), (2, 0), (3, 1009/1000)],
      [(4, 3/1000), (5, 3/1000), (6, 1003/1000)], 2, 2,
      some (0, 3/1000), [⟨1, 4, 1⟩, ⟨2, 5, 1⟩]⟩ settleCex_hc2) :=
  settleLoop_step_emit 3 _ settleCex_hc2 (by
    show (1/200 : ℚ) < min (1009/1000) (1003/1000)
    norm_num)

lemma settleCex_hs3 : settleStep ⟨[((1:ℤ), (0:ℚ)), (2, 0), (3, 1009/1000)],
      [(4, 3/1000), (5, 3/1000), (6, 1003/1000)], 2, 2,
      some (0, 3/1000), [⟨1, 4, 1⟩, ⟨2, 5, 1⟩]⟩ settleCex_hc2 = ⟨[((1:ℤ), (0:ℚ)), (2, 0), (3, 3/500)],
      [(4, 3/1000), (5, 3/1000), (6, 0)], 2, 3,
      some (3/500, 0), [⟨1, 4, 1⟩, ⟨2, 5, 1⟩, ⟨3, 6, 1⟩]⟩ := by
  norm_num [settleStep, settleEmit, settleAdvance, q2HE, roundHE]

lemma settleCex_iter3 : settleLoop 4 ⟨[((1:ℤ), (0:ℚ)), (2, 0), (3, 1009/1000)],
      [(4, 3/1000), (5, 3/1000), (6, 1003/1000)], 2, 2,
      some (0, 3/1000), [⟨1, 4, 1⟩, ⟨2, 5, 1⟩]⟩ = settleLoop 3 ⟨[((1:ℤ), (0:ℚ)), (2, 0), (3, 3/500)],
      [(4, 3/1000), (5, 3/1000), (6, 0)], 2, 3,
      some (3/500, 0), [⟨1, 4, 1⟩, ⟨2, 5, 1⟩, ⟨3, 6, 1⟩]⟩ := by
  rw [settleCex_he3, settleCex_hs3]

lemma settleCex_done : settleLoop 3 ⟨[((1:ℤ), (0:ℚ)), (2, 0), (3, 3/500)],
      [(4, 3/1000), (5, 3/1000), (6, 0)], 2, 3,
      some (3/500, 0), [⟨1, 4, 1⟩, ⟨2, 5, 1⟩, ⟨3, 6, 1⟩]⟩ =
    Except.ok [⟨1, 4, 1⟩, ⟨2, 5, 1⟩, ⟨3, 6, 1⟩] :=
  settleLoop_not_cond 3 _ (by
    intro hcond
    exact absurd hcond.2 (by norm_num))

/-- C4 counterexample: the zero-sum balance map
`{1: 1.000, 2: 1.000, 3: 1.009, 4: -1.003, 5: -1.003, 6: -1.003}` returns
normally with plan `[1→4: 1.00, 2→5: 1.00, 3→6: 1.00]`, yet debtor 3's
emitted total `1.00` differs from its balance `1.009` by `0.009`, which
exceeds the dust threshold `0.005` — conservation-within-dust fails even on
a zero-sum input. -/
theorem settlement_conservation_cex :
    calculate_suggested_settlements
      [((1:ℤ), (1:ℚ)), (2, 1), (3, 1009/1000), (4, -(1003/1000)), (5, -(1003/1000)),
        (6, -(1003/1000))] = Except.ok [⟨1, 4, 1⟩, ⟨2, 5, 1⟩, ⟨3, 6, 1⟩] ∧
    ([((1:ℤ), (1:ℚ)), (2, 1), (3, 1009/1000), (4, -(1003/1000)), (5, -(1003/1000)),
        (6, -(1003/1000))].map Prod.snd).sum = 0 ∧
    paidBy 3 [⟨1, 4, 1⟩, ⟨2, 5, 1⟩, ⟨3, 6, 1⟩] = 1 ∧
    ¬ (|1009/1000 - paidBy 3 [⟨1, 4, 1⟩, ⟨2, 5, 1⟩, ⟨3, 6, 1⟩]| ≤ 1/200) := by
  have hpaid : paidBy 3 [(⟨1, 4, 1⟩ : SuggestedPayment), ⟨2, 5, 1⟩, ⟨3, 6, 1⟩] = 1 := by
    norm_num [paidBy, List.filter_cons]
  refine ⟨?_, by norm_num, hpaid, ?_⟩
  · exact settleCex_init.trans (settleCex_iter1.trans (settleCex_iter2.trans
      (settleCex_iter3.trans settleCex_done)))
  · rw [hpaid,
      show |(1009:ℚ)/1000 - 1| = 9/1000 from by
        rw [show (1009:ℚ)/1000 - 1 = 9/1000 from by norm_num]
        exact abs_of_nonneg (by norm_num)]
    norm_num

/-- C4 amended: for every balance map with distinct keys on which the
Settlement Planner returns, each debtor's emitted total lies between `0` and
its balance plus half a cent of quantization slack per emitted payment, and
symmetrically each creditor's received total lies between `0` and the
negation of its balance plus the same slack; the claimed equality within the
dust threshold `0.005` does not hold in general (see the zero-sum
counterexample). -/
theorem settlement_conservation_bounds (net_balances : List (ℤ × ℚ))
    (l : List SuggestedPayment)
    (hnd : (net_balances.map Prod.fst).Nodup)
    (hok : calculate_suggested_settlements net_balances = Except.ok l) :
    ∀ u b, (u, b) ∈ net_balances →
      (0 < b → 0 ≤ paidBy u l ∧
        paidBy u l ≤ b + (1/200) * (paidCount u l : ℚ)) ∧
      (b < 0 → 0 ≤ receivedBy u l ∧
        receivedBy u l ≤ -b + (1/200) * (receivedCount u l : ℚ)) := by
  set dl0 := (net_balances.filter (fun e => 0 < e.2)).map
    (fun e : ℤ × ℚ => (e.1, e.2)) with hdl
  set cl0 := (net_balances.filter (fun e => e.2 < 0)).map
    (fun e : ℤ × ℚ => (e.1, -e.2)) with hcl
  have hok' : settleLoop (dl0.length + cl0.length)
      ⟨dl0, cl0, 0, 0, none, []⟩ = Except.ok l := hok
  have hpos : ∀ p ∈ l, 0 ≤ p.amount := by
    intro p hp
    have := settleLoop_ok_all (fun p => 1/200 < p.amount)
      (fun payer payee t ht => lt_of_lt_of_le (by norm_num) (q2HE_ge_of_dust ht))
      (dl0.length + cl0.length) ⟨dl0, cl0, 0, 0, none, []⟩ l
      (by intro q hq; simp at hq) hok' p hp
    linarith
  have hndd : (dl0.map Prod.fst).Nodup := by
    rw [hdl, List.map_map]
    have hc : (Prod.fst ∘ fun e : ℤ × ℚ => (e.1, e.2)) = Prod.fst :=
      funext (fun e => rfl)
    rw [hc]
    exact List.Nodup.sublist ((List.filter_sublist net_balances).map Prod.fst) hnd
  have hndc : (cl0.map Prod.fst).Nodup := by
    rw [hcl, List.map_map]
    have hc : (Prod.fst ∘ fun e : ℤ × ℚ => (e.1, -e.2)) = Prod.fst :=
      funext (fun e => rfl)
    rw [hc]
    exact List.Nodup.sublist ((List.filter_sublist net_balances).map Prod.fst) hnd
  have hinvd : debtorInv dl0 dl0 [] := by
    refine ⟨rfl, ?_⟩
    intro j hj
    refine ⟨rfl, ?_, by simp [paidBy, paidCount]⟩
    rw [List.getD_eq_getElem _ _ hj]
    have hm : dl0[j] ∈ dl0 := List.getElem_mem hj
    obtain ⟨e, he, heq⟩ := List.mem_map.mp hm
    have hef := List.mem_filter.mp he
    have hpos' : (0:ℚ) < e.2 := by simpa using hef.2
    rw [← heq]
    exact le_of_lt hpos'
  have hinvc : creditorInv cl0 cl0 [] := by
    refine ⟨rfl, ?_⟩
    intro j hj
    refine ⟨rfl, ?_, by simp [receivedBy, receivedCount]⟩
    rw [List.getD_eq_getElem _ _ hj]
    have hm : cl0[j] ∈ cl0 := List.getElem_mem hj
    obtain ⟨e, he, heq⟩ := List.mem_map.mp hm
    have hef := List.mem_filter.mp he
    have hneg : e.2 < (0:ℚ) := by simpa using hef.2
    rw [← heq]
    simp only
    linarith
  have hmain := settleLoop_inv_ok dl0 cl0 hndd hndc
    (dl0.length + cl0.length) ⟨dl0, cl0, 0, 0, none, []⟩ l hinvd hinvc hok'
  intro u b hmem
  constructor
  · intro hb
    refine ⟨paidBy_nonneg u l hpos, ?_⟩
    have hmemf : (u, b) ∈ net_balances.filter (fun e => 0 < e.2) :=
      List.mem_filter.mpr ⟨hmem, by simpa using hb⟩
    have hmemd : (u, b) ∈ dl0 := by
      rw [hdl]
      exact List.mem_map.mpr ⟨(u, b), hmemf, rfl⟩
    obtain ⟨j, hjlt, hje⟩ := List.mem_iff_getElem.mp hmemd
    have hj := hmain.1 j hjlt
    rw [List.getD_eq_getElem _ _ hjlt, hje] at hj
    exact hj
  · intro hb
    refine ⟨receivedBy_nonneg u l hpos, ?_⟩
    have hmemf : (u, b) ∈ net_balances.filter (fun e => e.2 < 0) :=
      List.mem_filter.mpr ⟨hmem, by simpa using hb⟩
    have hmemc : (u, -b) ∈ cl0 := by
      rw [hcl]
      exact List.mem_map.mpr ⟨(u, b), hmemf, rfl⟩
    obtain ⟨j, hjlt, hje⟩ := List.mem_iff_getElem.mp hmemc
    have hj := hmain.2 j hjlt
    rw [List.getD_eq_getElem _ _ hjlt, hje] at hj
    exact hj

/-- C4 witness: the amended theorem applied at `{1: 10, 2: -3}`, whose plan
is the single payment `1→2: 3.00`. -/
theorem settlement_conservation_bounds_witness :
    0 ≤ paidBy 1 [⟨1, 2, 3⟩] ∧
    paidBy 1 [⟨1, 2, 3⟩] ≤ 10 + (1/200) * (paidCount 1 [⟨1, 2, 3⟩] : ℚ) :=
  (settlement_conservation_bounds [(1, 10), (2, -3)] [⟨1, 2, 3⟩]
    (by simp)
    (by norm_num [calculate_suggested_settlements, settleLoop, settleStep, settleEmit,
      settleAdvance, settleCond, List.filter_cons, q2HE, roundHE])
    1 10 (by simp)).1 (by norm_num)

end GroupPay
